import Mathlib

/-
Verification of the edge-agent reporting pipeline of vision_analysis_pro.

The definitions below are a shallow embedding of the Python sources:
  - src/vision_analysis_pro/edge_agent/reporters/http.py  (HTTPReporter)
  - src/vision_analysis_pro/edge_agent/reporters/cache.py (CacheManager)
  - src/vision_analysis_pro/edge_agent/sources/base.py / folder.py / video.py / camera.py
  - src/vision_analysis_pro/edge_agent/agent.py           (EdgeAgent.run main loop)

Network and storage effects are made explicit: the outcome of each HTTP
attempt is an input (a function from attempt index to outcome), sleeps are
recorded as a trace, SQLite tables become lists of rows, and Python
exceptions become Except values.  Time stamps and delays are rationals.
-/

namespace VisionAnalysis

/-! ## Reporter: delivery status and per-attempt outcomes (models.py / http.py) -/

/-- `ReportStatus` enum from models.py. -/
inductive ReportStatus where
  | pending
  | success
  | failed
  | cached
  deriving DecidableEq

/-- Outcome of one HTTP POST attempt inside `_send_with_retry_sync`:
either a response with a status code, or one of the caught exception
classes (timeout, connection error, other HTTP error). -/
inductive AttemptOutcome where
  | response (code : Nat)
  | timeout
  | connectError
  | httpError
  deriving DecidableEq

/-- `response.is_success` in httpx: the status code is 2xx. -/
def isSuccess : AttemptOutcome → Bool
  | .response c => decide (200 ≤ c) && decide (c < 300)
  | _ => false

/-- The client-error test of `_send_with_retry_sync`:
`response.status_code >= 400 and response.status_code < 500`.
Exceptions never reach this test. -/
def isClientError : AttemptOutcome → Bool
  | .response c => decide (400 ≤ c) && decide (c < 500)
  | _ => false

/-- An outcome that is neither a 2xx response nor a 4xx response is
retried by the loop (5xx and other codes, timeouts, connection errors,
other HTTP errors). -/
def isRetryable (o : AttemptOutcome) : Bool :=
  !isSuccess o && !isClientError o

/-- The reporter-relevant fields of `ReporterConfig` (config.py). -/
structure ReporterConfig where
  retryMax : Nat
  retryDelay : ℚ
  retryBackoff : ℚ
  batchSize : Nat

/-- Observable trace of one `_send_with_retry_sync` call: the returned
status, the number of POST attempts performed, and the sequence of
`time.sleep` delays executed between attempts. -/
structure SendTrace where
  status : ReportStatus
  attempts : Nat
  sleeps : List ℚ
  deriving DecidableEq

/-- The body of the `for attempt in range(retry_max + 1)` loop of
`HTTPReporter._send_with_retry_sync`.  `attempt` is the current loop
index, `delay` the current backoff delay, and `fuel` the number of loop
iterations still permitted (`retryMax + 1 - attempt` at the top call).
On a 2xx response the loop returns SUCCESS; on a 4xx response it returns
FAILED without retrying; otherwise, if `attempt < retryMax`, it sleeps
`delay`, multiplies the delay by the backoff factor, and iterates; after
the last iteration it falls through to FAILED. -/
def sendRetryAux (outcomes : Nat → AttemptOutcome) (retryMax : Nat) (backoff : ℚ) :
    Nat → ℚ → Nat → SendTrace
  | _, _, 0 => ⟨.failed, 0, []⟩
  | attempt, delay, fuel + 1 =>
      let o := outcomes attempt
      if isSuccess o then ⟨.success, 1, []⟩
      else if isClientError o then ⟨.failed, 1, []⟩
      else if attempt < retryMax then
        let rest := sendRetryAux outcomes retryMax backoff (attempt + 1) (delay * backoff) fuel
        ⟨rest.status, rest.attempts + 1, delay :: rest.sleeps⟩
      else ⟨.failed, 1, []⟩

/-- `HTTPReporter._send_with_retry_sync` (http.py, lines 254-323):
attempt delivery up to `retryMax + 1` times starting from delay
`retryDelay`, with exponential backoff. -/
def sendWithRetrySync (cfg : ReporterConfig) (outcomes : Nat → AttemptOutcome) : SendTrace :=
  sendRetryAux outcomes cfg.retryMax cfg.retryBackoff 0 cfg.retryDelay (cfg.retryMax + 1)

/-- `CacheManager.add` as seen from `report_sync`: it either succeeds or
raises; `ok` says whether the underlying storage insert succeeds. -/
def cacheAddResult (ok : Bool) : Except String Unit :=
  if ok then .ok () else .error ("storage error")

/-- `HTTPReporter.report_sync` (http.py, lines 155-181).  If the reporter
is not connected it returns FAILED.  Otherwise it runs the retry loop;
if that yields FAILED and a cache is configured it tries `cache.add`:
on success it returns CACHED, and if `add` raises, the exception is
caught, logged, and the FAILED status is returned.  The result is always
`Except.ok`: no exception escapes for a delivery failure. -/
def reportSync (connected hasCache cacheOk : Bool)
    (cfg : ReporterConfig) (outcomes : Nat → AttemptOutcome) :
    Except String ReportStatus :=
  if !connected then .ok .failed
  else
    let status := (sendWithRetrySync cfg outcomes).status
    if status = .failed ∧ hasCache = true then
      match cacheAddResult cacheOk with
      | .ok _ => .ok .cached
      | .error _ => .ok status
    else .ok status

lemma isSuccess_eq_false_of_retryable {o : AttemptOutcome}
    (h : isRetryable o = true) : isSuccess o = false := by
  unfold isRetryable at h
  rcases Bool.and_eq_true .. |>.mp h with ⟨h1, _⟩
  simpa using h1

lemma isClientError_eq_false_of_retryable {o : AttemptOutcome}
    (h : isRetryable o = true) : isClientError o = false := by
  unfold isRetryable at h
  rcases Bool.and_eq_true .. |>.mp h with ⟨_, h2⟩
  simpa using h2

lemma isSuccess_eq_false_of_clientError {o : AttemptOutcome}
    (h : isClientError o = true) : isSuccess o = false := by
  cases o with
  | response c =>
      simp only [isClientError, Bool.and_eq_true, decide_eq_true_eq] at h
      simp only [isSuccess, Bool.and_eq_false_iff, decide_eq_false_iff_not]
      omega
  | timeout => rfl
  | connectError => rfl
  | httpError => rfl

/-- When every attempt fails with a retryable outcome, the loop starting
at index `attempt` with `fuel` permitted iterations performs exactly
`fuel` attempts, sleeps `delay, delay*b, ...` (`fuel - 1` sleeps), and
returns FAILED.  The side condition ties `fuel` to the loop bound. -/
lemma sendRetryAux_all_retryable (outcomes : Nat → AttemptOutcome)
    (retryMax : Nat) (b : ℚ) (h : ∀ i, isRetryable (outcomes i) = true) :
    ∀ fuel attempt delay, attempt + fuel = retryMax + 1 →
      sendRetryAux outcomes retryMax b attempt delay fuel =
        ⟨.failed, fuel, (List.range (fuel - 1)).map (fun i => delay * b ^ i)⟩ := by
  intro fuel
  induction fuel with
  | zero => intro attempt delay _; simp [sendRetryAux]
  | succ f ih =>
      intro attempt delay hbound
      have hs := isSuccess_eq_false_of_retryable (h attempt)
      have hc := isClientError_eq_false_of_retryable (h attempt)
      cases f with
      | zero =>
          have : ¬ attempt < retryMax := by omega
          simp [sendRetryAux, hs, hc, this]
      | succ f' =>
          have hlt : attempt < retryMax := by omega
          have hrec := ih (attempt + 1) (delay * b) (by omega)
          rw [sendRetryAux]
          simp only [hs, hc, hlt, Bool.false_eq_true, if_false, if_true]
          rw [hrec]
          refine congrArg (SendTrace.mk .failed (f' + 1 + 1)) ?_
          have hfun : (fun i => delay * b * b ^ i) = (fun i => delay * b ^ (i + 1)) := by
            funext i
            ring
          rw [Nat.succ_sub_one, Nat.succ_sub_one, List.range_succ_eq_map,
            List.map_cons, List.map_map]
          simp [hfun, Function.comp]

/-- C2: with `retry_max = R`, `retry_delay = d`, `retry_backoff = b`, a
delivery sequence in which every attempt fails with a retryable error
(5xx, timeout, connection error) performs exactly `R + 1` POST attempts,
sleeps `d, d*b, d*b^2, ...` between consecutive attempts (the gap after
the i-th attempt, 0-indexed, is `d * b^i`), and returns FAILED. -/
theorem send_with_retry_exhaustion_schedule (cfg : ReporterConfig)
    (outcomes : Nat → AttemptOutcome)
    (h : ∀ i, isRetryable (outcomes i) = true) :
    sendWithRetrySync cfg outcomes =
      ⟨.failed, cfg.retryMax + 1,
        (List.range cfg.retryMax).map (fun i => cfg.retryDelay * cfg.retryBackoff ^ i)⟩ := by
  unfold sendWithRetrySync
  have := sendRetryAux_all_retryable outcomes cfg.retryMax cfg.retryBackoff h
    (cfg.retryMax + 1) 0 cfg.retryDelay (by omega)
  simpa using this

/-- Witness for C2: three retries, delay 1, backoff 2, permanent
timeouts: 4 attempts, sleeps `[1, 2, 4]`, FAILED. -/
theorem send_with_retry_exhaustion_schedule_witness :
    sendWithRetrySync ⟨3, 1, 2, 10⟩ (fun _ => AttemptOutcome.timeout) =
      ⟨.failed, 4, [1, 2, 4]⟩ :=
  (send_with_retry_exhaustion_schedule ⟨3, 1, 2, 10⟩ (fun _ => .timeout)
    (fun _ => rfl)).trans (by norm_num [List.range_succ])

/-- C3: if the first attempt receives a 4xx response, the delivery
sequence performs exactly 1 attempt, sleeps never, and returns FAILED,
regardless of `retry_max`. -/
theorem client_error_not_retried (cfg : ReporterConfig)
    (outcomes : Nat → AttemptOutcome)
    (h : isClientError (outcomes 0) = true) :
    sendWithRetrySync cfg outcomes = ⟨.failed, 1, []⟩ := by
  unfold sendWithRetrySync
  rw [sendRetryAux]
  simp [isSuccess_eq_false_of_clientError h, h]

/-- Witness for C3: a 404 on the first attempt with `retry_max = 5`
gives a single attempt and FAILED. -/
theorem client_error_not_retried_witness :
    sendWithRetrySync ⟨5, 1, 2, 10⟩ (fun _ => AttemptOutcome.response 404) =
      ⟨.failed, 1, []⟩ :=
  client_error_not_retried ⟨5, 1, 2, 10⟩ (fun _ => .response 404) rfl

/-- C1: when every delivery attempt fails with a retryable error, a
connected reporter with a cache whose `add` succeeds persists the
payload and returns CACHED; a reporter without a cache returns FAILED;
and in every case (cache or not, persistence succeeding or raising)
`report_sync` returns an ordinary status rather than propagating an
exception. -/
theorem report_sync_failure_contract (cfg : ReporterConfig)
    (outcomes : Nat → AttemptOutcome)
    (h : ∀ i, isRetryable (outcomes i) = true) :
    reportSync true true true cfg outcomes = .ok .cached
    ∧ (∀ cacheOk, reportSync true false cacheOk cfg outcomes = .ok .failed)
    ∧ (∀ connected hasCache cacheOk,
        ∃ s, reportSync connected hasCache cacheOk cfg outcomes = .ok s) := by
  have hst : (sendWithRetrySync cfg outcomes).status = .failed := by
    rw [send_with_retry_exhaustion_schedule cfg outcomes h]
  refine ⟨?_, ?_, ?_⟩
  · simp [reportSync, hst, cacheAddResult]
  · intro cacheOk
    simp [reportSync, hst]
  · intro connected hasCache cacheOk
    cases connected with
    | false => exact ⟨.failed, rfl⟩
    | true =>
        cases hasCache with
        | false => exact ⟨.failed, by simp [reportSync, hst]⟩
        | true =>
            cases cacheOk with
            | false => exact ⟨.failed, by simp [reportSync, hst, cacheAddResult]⟩
            | true => exact ⟨.cached, by simp [reportSync, hst, cacheAddResult]⟩

/-- Witness for C1: one retry, permanent connection errors, cache
configured and persistence succeeding: CACHED. -/
theorem report_sync_failure_contract_witness :
    reportSync true true true ⟨1, 1, 2, 10⟩ (fun _ => AttemptOutcome.connectError) =
      .ok .cached :=
  (report_sync_failure_contract ⟨1, 1, 2, 10⟩ (fun _ => .connectError) (fun _ => rfl)).1

/-! ## Source iteration (sources/base.py `BaseSource.__iter__`) -/

/-- The yielded-frame sequence of `BaseSource.__iter__` for a
non-looping source whose successive `read_frame` calls return the frames
of `frames` and then `None`.  `count` is `self._frame_count` before the
current read.  Each read increments the counter; when
`skip_frames > 0` a frame is discarded unless
`(frame_count - 1) % (skip_frames + 1) == 0`.  The FPS-limiting sleep
does not affect which frames are yielded and is omitted. -/
def iterFramesAux (skip : Nat) : Nat → List α → List α
  | _, [] => []
  | count, f :: rest =>
      let count' := count + 1
      if skip > 0 ∧ (count' - 1) % (skip + 1) ≠ 0 then iterFramesAux skip count' rest
      else f :: iterFramesAux skip count' rest

/-- Frames yielded by iterating a fresh source (`_frame_count = 0`). -/
def iterFrames (skip : Nat) (frames : List α) : List α :=
  iterFramesAux skip 0 frames

/-- Modelled from the spec: keep only each `(N+1)`-th frame, 1 kept and
`N` discarded, counting from the first frame. -/
def specKeepEvery (skip : Nat) : List α → List α
  | [] => []
  | f :: rest => f :: specKeepEvery skip (rest.drop skip)
  termination_by l => l.length
  decreasing_by
    simp only [List.length_drop, List.length_cons]
    omega

/-- Keep the elements whose 0-based index `i` (offset by the first
argument) satisfies `(offset + i) % m = 0`. -/
def filterIdx (m : Nat) : Nat → List α → List α
  | _, [] => []
  | j, f :: rest =>
      if j % m = 0 then f :: filterIdx m (j + 1) rest
      else filterIdx m (j + 1) rest

lemma iterFramesAux_eq_filterIdx (skip : Nat) (hskip : 0 < skip) :
    ∀ (l : List α) (count : Nat),
      iterFramesAux skip count l = filterIdx (skip + 1) count l := by
  intro l
  induction l with
  | nil => intro count; rfl
  | cons f rest ih =>
      intro count
      rw [iterFramesAux, filterIdx]
      have harith : count + 1 - 1 = count := by omega
      by_cases hmod : count % (skip + 1) = 0
      · simp [harith, hmod, ih]
      · simp [harith, hmod, hskip, ih]

lemma filterIdx_add_period (m : Nat) :
    ∀ (l : List α) (j : Nat), filterIdx m (m + j) l = filterIdx m j l := by
  intro l
  induction l with
  | nil => intro j; rfl
  | cons f rest ih =>
      intro j
      rw [filterIdx, filterIdx, Nat.add_mod_left]
      rw [show m + j + 1 = m + (j + 1) from by omega, ih]

lemma filterIdx_shift (m : Nat) :
    ∀ (k : Nat) (l : List α) (j : Nat), 0 < j → j + k = m →
      filterIdx m j l = filterIdx m 0 (l.drop k) := by
  intro k
  induction k with
  | zero =>
      intro l j _ hm
      rw [List.drop_zero, show j = m + 0 from by omega, filterIdx_add_period]
  | succ k ih =>
      intro l j hj hm
      cases l with
      | nil => simp [filterIdx]
      | cons f rest =>
          rw [filterIdx]
          have hne : ¬ j % m = 0 := by
            have : j < m := by omega
            rw [Nat.mod_eq_of_lt this]
            omega
          rw [if_neg hne, List.drop_succ_cons, ih rest (j + 1) (by omega) (by omega)]

lemma filterIdx_eq_specKeepEvery (skip : Nat) :
    ∀ (l : List α), filterIdx (skip + 1) 0 l = specKeepEvery skip l := by
  suffices h : ∀ (n : Nat) (l : List α), l.length ≤ n →
      filterIdx (skip + 1) 0 l = specKeepEvery skip l from
    fun l => h l.length l le_rfl
  intro n
  induction n with
  | zero =>
      intro l hl
      rw [List.length_eq_zero.mp (Nat.le_zero.mp hl)]
      simp [filterIdx, specKeepEvery]
  | succ n ih =>
      intro l hl
      cases l with
      | nil => simp [filterIdx, specKeepEvery]
      | cons f rest =>
          rw [filterIdx, if_pos (Nat.zero_mod _), specKeepEvery,
            filterIdx_shift (skip + 1) skip rest 1 (by omega) (by omega)]
          have hlen : (rest.drop skip).length ≤ n := by
            simp only [List.length_cons] at hl
            simp only [List.length_drop]
            omega
          rw [ih _ hlen]

/-- C8: for a source iterated with `skip_frames = N > 0`, exactly each
`(N+1)`-th read frame is yielded (1 kept, `N` discarded), counting from
the first read frame; the yielded sequence equals the spec-side
`specKeepEvery`.  In particular a 6-frame folder with `skip_frames = 1`
yields the frames at 1-indexed read positions 1, 3, 5. -/
theorem skip_frames_keeps_every_nth :
    (∀ (α : Type) (skip : Nat) (frames : List α), 0 < skip →
      iterFrames skip frames = specKeepEvery skip frames)
    ∧ iterFrames 1 [1, 2, 3, 4, 5, 6] = [1, 3, 5] := by
  have hgen : ∀ (α : Type) (skip : Nat) (frames : List α), 0 < skip →
      iterFrames skip frames = specKeepEvery skip frames := by
    intro α skip frames hskip
    rw [iterFrames, iterFramesAux_eq_filterIdx skip hskip,
      filterIdx_eq_specKeepEvery]
  exact ⟨hgen, by rw [hgen ℕ 1 [1, 2, 3, 4, 5, 6] (by omega)]; simp [specKeepEvery]⟩

/-- Witness for C8: the general clause applied to a concrete 6-frame
folder with `skip_frames = 1` keeps read positions 1, 3, 5. -/
theorem skip_frames_keeps_every_nth_witness :
    iterFrames 1 [10, 20, 30, 40, 50, 60] = specKeepEvery 1 [10, 20, 30, 40, 50, 60] :=
  skip_frames_keeps_every_nth.1 ℕ 1 [10, 20, 30, 40, 50, 60] (by omega)

/-! ## Cache manager (reporters/cache.py `CacheManager`) -/

/-- One row of the `cache_entries` SQLite table. -/
structure CacheEntry where
  id : Nat
  batchId : String
  deviceId : String
  createdAt : ℚ
  retryCount : Nat
  lastError : String
  deriving DecidableEq

/-- The `CacheManager` state: `isOpen` is `self._is_open`, `conn` records
whether `self._conn` is not `None`, `nextId` the next AUTOINCREMENT row
id, and `entries` the rows of `cache_entries` in insertion order. -/
structure CacheState where
  isOpen : Bool
  conn : Bool
  nextId : Nat
  entries : List CacheEntry
  deriving DecidableEq

/-- The fields of a `ReportPayload` that `CacheManager.add` persists. -/
structure PayloadMeta where
  batchId : String
  deviceId : String
  retryCount : Nat
  deriving DecidableEq

namespace CacheState

/-- The row inserted by `CacheManager.add`: fresh id, the payload's
batch id, device id, retry count, `created_at = now`, empty last
error. -/
def mkEntry (i : Nat) (p : PayloadMeta) (now : ℚ) : CacheEntry :=
  ⟨i, p.batchId, p.deviceId, now, p.retryCount, ""⟩

/-- `CacheManager.add` (cache.py, lines 130-173).  Raises when the cache
is not open; otherwise `INSERT OR REPLACE` keyed by the unique
`batch_id`: any row with the same batch id is replaced, the new row gets
a fresh id, `created_at = now`, the payload's retry count, and an empty
last error.  Returns the new row id. -/
def add (st : CacheState) (p : PayloadMeta) (now : ℚ) :
    Except String (Nat × CacheState) :=
  if !st.isOpen || !st.conn then .error ("cache not open")
  else
    let pruned := st.entries.filter (fun e => decide (e.batchId ≠ p.batchId))
    .ok (st.nextId,
      { st with nextId := st.nextId + 1, entries := pruned ++ [mkEntry st.nextId p now] })

/-- `CacheManager.get` (cache.py, lines 175-198): `None` when closed or
when no row has the id. -/
def get (st : CacheState) (entryId : Nat) : Option CacheEntry :=
  if !st.isOpen || !st.conn then none
  else st.entries.find? (fun e => decide (e.id = entryId))

/-- Insert an entry into a list sorted by ascending `created_at`
(before the first strictly later entry), used to model
`ORDER BY created_at ASC`. -/
def insertByCreated (e : CacheEntry) : List CacheEntry → List CacheEntry
  | [] => [e]
  | x :: xs =>
      if e.createdAt < x.createdAt then e :: x :: xs
      else x :: insertByCreated e xs

/-- The rows of the table ordered by ascending `created_at`
(`ORDER BY created_at ASC`). -/
def sortByCreated (l : List CacheEntry) : List CacheEntry :=
  l.foldr insertByCreated []

/-- `CacheManager.get_pending` (cache.py, lines 200-226): the empty list
when closed, otherwise up to `limit` rows ordered oldest-first. -/
def getPending (st : CacheState) (limit : Nat) : List CacheEntry :=
  if !st.isOpen || !st.conn then []
  else (sortByCreated st.entries).take limit

/-- `CacheManager.remove` (cache.py, lines 228-257): false when closed;
otherwise deletes the row with the given id and reports whether the
DELETE touched a row (`cursor.rowcount > 0`). -/
def remove (st : CacheState) (entryId : Nat) : Bool × CacheState :=
  if !st.isOpen || !st.conn then (false, st)
  else
    let kept := st.entries.filter (fun e => decide (e.id ≠ entryId))
    (decide (kept.length < st.entries.length), { st with entries := kept })

/-- `CacheManager.remove_by_batch_id` (cache.py, lines 259-283). -/
def removeByBatchId (st : CacheState) (batchId : String) : Bool × CacheState :=
  if !st.isOpen || !st.conn then (false, st)
  else
    let kept := st.entries.filter (fun e => decide (e.batchId ≠ batchId))
    (decide (kept.length < st.entries.length), { st with entries := kept })

/-- The row transformation of the UPDATE statement in
`CacheManager.update_retry`: `retry_count = retry_count + 1`,
`last_error = err`. -/
def bumpRetry (err : String) (e : CacheEntry) : CacheEntry :=
  { e with retryCount := e.retryCount + 1, lastError := err }

/-- `CacheManager.update_retry` (cache.py, lines 285-309): a no-op when
closed; otherwise increments `retry_count` of the row with the given id
and stores the error string. -/
def updateRetry (st : CacheState) (entryId : Nat) (err : String) : CacheState :=
  if !st.isOpen || !st.conn then st
  else
    { st with
        entries := st.entries.map (fun e =>
          if e.id = entryId then bumpRetry err e else e) }

/-- `CacheManager.count` (cache.py, lines 311-324): 0 when closed. -/
def count (st : CacheState) : Nat :=
  if !st.isOpen || !st.conn then 0 else st.entries.length

/-- `CacheManager.clear` (cache.py, lines 326-349): 0 when closed;
otherwise deletes every row and returns how many there were. -/
def clear (st : CacheState) : Nat × CacheState :=
  if !st.isOpen || !st.conn then (0, st)
  else (st.entries.length, { st with entries := [] })

/-- `CacheManager.cleanup_expired` (cache.py, lines 351-382): deletes the
rows with `created_at < now - max_age_hours * 3600`. -/
def cleanupExpired (st : CacheState) (maxAgeHours : ℚ) (now : ℚ) :
    Nat × CacheState :=
  if !st.isOpen || !st.conn then (0, st)
  else
    let cutoff := now - maxAgeHours * 3600
    let kept := st.entries.filter (fun e => decide (¬ e.createdAt < cutoff))
    (st.entries.length - kept.length, { st with entries := kept })

/-- `CacheManager.cleanup_overflow` (cache.py, lines 384-425): when the
row count exceeds `max_entries`, deletes the rows whose ids are among
the `count - max_entries` first rows in ascending `created_at` order. -/
def cleanupOverflow (st : CacheState) (maxEntries : Nat) : Nat × CacheState :=
  if !st.isOpen || !st.conn then (0, st)
  else
    let current := st.count
    if current ≤ maxEntries then (0, st)
    else
      let toRemove := current - maxEntries
      let victims := ((sortByCreated st.entries).take toRemove).map CacheEntry.id
      let kept := st.entries.filter (fun e => decide (¬ e.id ∈ victims))
      (st.entries.length - kept.length, { st with entries := kept })

/-- `CacheManager.close` (cache.py, lines 82-88): closes and drops the
connection and clears the open flag.  Never raises. -/
def close (st : CacheState) : CacheState :=
  { st with conn := false, isOpen := false }

end CacheState

/-! ## Source close methods (sources/folder.py, video.py, camera.py) -/

/-- The mutable state of a `FolderSource`. -/
structure FolderSourceState where
  imageFiles : List String
  currentIndex : Nat
  frameCount : Nat
  isOpen : Bool
  deriving DecidableEq

/-- `FolderSource.close` (folder.py, lines 83-88): clears the scanned
file list, rewinds the index and clears the open flag.  Never raises. -/
def FolderSourceState.close (s : FolderSourceState) : FolderSourceState :=
  { s with imageFiles := [], currentIndex := 0, isOpen := false }

/-- The mutable state of a `VideoSource`; `cap` records whether
`self._cap` is not `None`. -/
structure VideoSourceState where
  cap : Bool
  frameCount : Nat
  isOpen : Bool
  deriving DecidableEq

/-- `VideoSource.close` (video.py, lines 89-95): releases the capture
handle if present and clears the open flag.  Never raises. -/
def VideoSourceState.close (s : VideoSourceState) : VideoSourceState :=
  { s with cap := false, isOpen := false }

/-- The mutable state of a `CameraSource`; `cap` records whether
`self._cap` is not `None`. -/
structure CameraSourceState where
  cap : Bool
  isStreaming : Bool
  frameCount : Nat
  isOpen : Bool
  deriving DecidableEq

/-- `CameraSource.close` (camera.py, lines 134-141): stops streaming,
releases the capture handle if present and clears the open flag.
Never raises. -/
def CameraSourceState.close (s : CameraSourceState) : CameraSourceState :=
  { s with isStreaming := false, cap := false, isOpen := false }

/-- C9: `close()` is idempotent on every Source variant and on the Cache
Manager: a second `close` leaves the state exactly as the first left it.
All four `close` embeddings are total functions, so no call raises. -/
theorem close_idempotent :
    (∀ s : FolderSourceState, s.close.close = s.close)
    ∧ (∀ s : VideoSourceState, s.close.close = s.close)
    ∧ (∀ s : CameraSourceState, s.close.close = s.close)
    ∧ (∀ st : CacheState, st.close.close = st.close) :=
  ⟨fun _ => rfl, fun _ => rfl, fun _ => rfl, fun _ => rfl⟩

/-- C10: on a Cache Manager that is not open, `add` raises a
RuntimeError while every other operation degrades silently: `get`
returns None, `get_pending` the empty list, `remove` and
`remove_by_batch_id` false (with the state unchanged), and `count`,
`clear`, `cleanup_expired` and `cleanup_overflow` all return 0 (with the
state unchanged). -/
theorem closed_cache_degrades (st : CacheState) (h : st.isOpen = false)
    (p : PayloadMeta) (now : ℚ) (entryId : Nat) (batchId : String)
    (limit maxEntries : Nat) (maxAgeHours t : ℚ) :
    (∃ msg, st.add p now = .error msg)
    ∧ st.get entryId = none
    ∧ st.getPending limit = []
    ∧ st.remove entryId = (false, st)
    ∧ st.removeByBatchId batchId = (false, st)
    ∧ st.count = 0
    ∧ st.clear = (0, st)
    ∧ st.cleanupExpired maxAgeHours t = (0, st)
    ∧ st.cleanupOverflow maxEntries = (0, st) := by
  refine ⟨⟨"cache not open", ?_⟩, ?_, ?_, ?_, ?_, ?_, ?_, ?_, ?_⟩ <;>
    simp [CacheState.add, CacheState.get, CacheState.getPending,
      CacheState.remove, CacheState.removeByBatchId, CacheState.count,
      CacheState.clear, CacheState.cleanupExpired, CacheState.cleanupOverflow, h]

/-- Witness for C10: a closed cache state that still holds a row. -/
theorem closed_cache_degrades_witness :
    (CacheState.count ⟨false, true, 2, [⟨1, "b1", "d1", 0, 0, ""⟩]⟩ = 0)
    ∧ CacheState.get ⟨false, true, 2, [⟨1, "b1", "d1", 0, 0, ""⟩]⟩ 1 = none :=
  let st : CacheState := ⟨false, true, 2, [⟨1, "b1", "d1", 0, 0, ""⟩]⟩
  let h := closed_cache_degrades st rfl ⟨"b2", "d1", 0⟩ 0 1 "b1" 5 5 1 0
  ⟨h.2.2.2.2.2.1, h.2.1⟩

/-! ## Cleanup-overflow eviction (C5) -/

/-- A list already sorted by strictly increasing `created_at` is a
fixpoint of the `ORDER BY created_at ASC` model. -/
lemma sortByCreated_eq_self :
    ∀ l : List CacheEntry,
      l.Pairwise (fun a b => a.createdAt < b.createdAt) →
      CacheState.sortByCreated l = l := by
  intro l h
  induction l with
  | nil => rfl
  | cons x xs ih =>
      have hx : ∀ b ∈ xs, x.createdAt < b.createdAt := (List.pairwise_cons.mp h).1
      have htail := (List.pairwise_cons.mp h).2
      show CacheState.insertByCreated x (CacheState.sortByCreated xs) = x :: xs
      rw [ih htail]
      cases xs with
      | nil => rfl
      | cons y ys =>
          rw [CacheState.insertByCreated, if_pos (hx y (by simp))]

/-- Splitting a DELETE-by-id-list over an append: rows of `l1` all have
victim ids, rows of `l2` none. -/
lemma filter_not_mem_ids (ids : List Nat) (l1 l2 : List CacheEntry)
    (h1 : ∀ e ∈ l1, e.id ∈ ids) (h2 : ∀ e ∈ l2, e.id ∉ ids) :
    (l1 ++ l2).filter (fun e => decide (¬ e.id ∈ ids)) = l2 := by
  rw [List.filter_append]
  have e1 : l1.filter (fun e => decide (¬ e.id ∈ ids)) = [] := by
    rw [List.filter_eq_nil_iff]
    intro e he
    simp only [decide_eq_true_eq, not_not]
    exact h1 e he
  have e2 : l2.filter (fun e => decide (¬ e.id ∈ ids)) = l2 := by
    rw [List.filter_eq_self]
    intro e he
    simp only [decide_eq_true_eq]
    exact h2 e he
  rw [e1, e2, List.nil_append]

lemma filter_not_mem_take_ids (l : List CacheEntry) (k : Nat)
    (hids : (l.map CacheEntry.id).Nodup) :
    l.filter (fun e => decide (¬ e.id ∈ (l.take k).map CacheEntry.id)) = l.drop k := by
  have hdisj : List.Disjoint ((l.take k).map CacheEntry.id)
      ((l.drop k).map CacheEntry.id) := by
    apply List.disjoint_of_nodup_append
    rw [← List.map_append, List.take_append_drop]
    exact hids
  have h1 : ∀ e ∈ l.take k, e.id ∈ (l.take k).map CacheEntry.id :=
    fun e he => List.mem_map_of_mem CacheEntry.id he
  have h2 : ∀ e ∈ l.drop k, e.id ∉ (l.take k).map CacheEntry.id :=
    fun e he hmem => hdisj hmem (List.mem_map_of_mem CacheEntry.id he)
  have hsplit := filter_not_mem_ids ((l.take k).map CacheEntry.id)
    (l.take k) (l.drop k) h1 h2
  rw [List.take_append_drop] at hsplit
  exact hsplit

/-- C5: on an open cache whose rows have pairwise-distinct ids and
strictly increasing creation times (listed oldest first), when the
table holds `M + k` rows with `k > 0`, `cleanup_overflow()` removes
exactly `k` rows — the `k` oldest by creation time, i.e. the first `k`
of the ascending listing — leaving the remaining rows in order, and
`count()` afterwards equals `M`; when the table holds at most `M` rows
it removes nothing and returns 0. -/
theorem cleanup_overflow_evicts_oldest (st : CacheState) (M : Nat)
    (hopen : st.isOpen = true) (hconn : st.conn = true)
    (hsort : st.entries.Pairwise (fun a b => a.createdAt < b.createdAt))
    (hids : (st.entries.map CacheEntry.id).Nodup) :
    (∀ k, st.entries.length = M + k → 0 < k →
      st.cleanupOverflow M = (k, { st with entries := st.entries.drop k })
      ∧ (st.cleanupOverflow M).2.count = M)
    ∧ (st.entries.length ≤ M → st.cleanupOverflow M = (0, st)) := by
  constructor
  · intro k hlen hk
    have hmain : st.cleanupOverflow M =
        (k, { st with entries := st.entries.drop k }) := by
      rw [CacheState.cleanupOverflow]
      simp only [hopen, hconn, Bool.not_true, Bool.or_self, Bool.false_eq_true,
        if_false]
      have hcount : st.count = M + k := by
        simp [CacheState.count, hopen, hconn, hlen]
      rw [hcount, if_neg (by omega), sortByCreated_eq_self st.entries hsort]
      have hkeq : M + k - M = k := by omega
      rw [hkeq, filter_not_mem_take_ids st.entries k hids]
      have : st.entries.length - (st.entries.drop k).length = k := by
        rw [List.length_drop]
        omega
      rw [this]
    refine ⟨hmain, ?_⟩
    rw [hmain]
    simp [CacheState.count, hopen, hconn, List.length_drop, hlen]
  · intro hle
    rw [CacheState.cleanupOverflow]
    simp only [hopen, hconn, Bool.not_true, Bool.or_self, Bool.false_eq_true,
      if_false]
    have hcount : st.count = st.entries.length := by
      simp [CacheState.count, hopen, hconn]
    rw [hcount, if_pos hle]

/-- Witness for C5: an open cache with 3 rows and `max_entries = 1`
evicts the 2 oldest rows, keeping the newest, and then counts 1. -/
theorem cleanup_overflow_evicts_oldest_witness :
    CacheState.cleanupOverflow ⟨true, true, 4,
        [⟨1, "b1", "d", 10, 0, ""⟩, ⟨2, "b2", "d", 20, 0, ""⟩,
         ⟨3, "b3", "d", 30, 0, ""⟩]⟩ 1 =
      (2, ⟨true, true, 4, [⟨3, "b3", "d", 30, 0, ""⟩]⟩) := by
  have h := (cleanup_overflow_evicts_oldest ⟨true, true, 4,
      [⟨1, "b1", "d", 10, 0, ""⟩, ⟨2, "b2", "d", 20, 0, ""⟩,
       ⟨3, "b3", "d", 30, 0, ""⟩]⟩ 1 rfl rfl
      (by norm_num) (by simp)).1 2 rfl (by omega)
  exact h.1

/-! ## FIFO replay of get_pending (C6) -/

/-- A sequence of `CacheManager.add` calls, each with its payload and
wall-clock `datetime.now().timestamp()` value; stops at the first
raised error. -/
def addSeq (st : CacheState) : List (PayloadMeta × ℚ) → Except String CacheState
  | [] => .ok st
  | (p, t) :: rest =>
      match st.add p t with
      | .ok (_, st') => addSeq st' rest
      | .error e => .error e

/-- Running `add` over payloads with fresh batch ids and strictly
increasing times appends the corresponding rows in order and keeps the
table sorted by creation time. -/
lemma addSeq_spec :
    ∀ (items : List (PayloadMeta × ℚ)) (st : CacheState),
      st.isOpen = true → st.conn = true →
      st.entries.Pairwise (fun a b => a.createdAt < b.createdAt) →
      (∀ e ∈ st.entries, ∀ it ∈ items, e.createdAt < it.2) →
      (∀ e ∈ st.entries, ∀ it ∈ items, e.batchId ≠ it.1.batchId) →
      items.Pairwise (fun a b => a.2 < b.2) →
      (items.map (fun it => it.1.batchId)).Nodup →
      ∃ st', addSeq st items = .ok st'
        ∧ st'.isOpen = true ∧ st'.conn = true
        ∧ st'.entries.map (fun e => (e.batchId, e.createdAt)) =
            st.entries.map (fun e => (e.batchId, e.createdAt))
              ++ items.map (fun it => (it.1.batchId, it.2))
        ∧ st'.entries.Pairwise (fun a b => a.createdAt < b.createdAt) := by
  intro items
  induction items with
  | nil =>
      intro st ho hc hsorted _ _ _ _
      exact ⟨st, rfl, ho, hc, by simp, hsorted⟩
  | cons it rest ih =>
      intro st ho hc hsorted hbelow hfresh htimes hnodup
      obtain ⟨p, t⟩ := it
      have hadd : st.add p t = .ok (st.nextId,
          { st with nextId := st.nextId + 1,
                    entries := st.entries ++ [CacheState.mkEntry st.nextId p t] }) := by
        rw [CacheState.add]
        simp only [ho, hc, Bool.not_true, Bool.or_self, Bool.false_eq_true, if_false]
        have : st.entries.filter (fun e => decide (e.batchId ≠ p.batchId)) = st.entries := by
          rw [List.filter_eq_self]
          intro e he
          simp only [decide_eq_true_eq]
          exact hfresh e he (p, t) (by simp)
        rw [this]
      have hmemrest : ∀ b ∈ rest, b ∈ (p, t) :: rest := fun b hb => List.mem_cons_of_mem _ hb
      have hsorted1 : (st.entries ++ [CacheState.mkEntry st.nextId p t]).Pairwise
          (fun a b => a.createdAt < b.createdAt) := by
        rw [List.pairwise_append]
        refine ⟨hsorted, List.pairwise_singleton _ _, ?_⟩
        intro a ha b hb
        rw [List.mem_singleton.mp hb]
        exact hbelow a ha (p, t) (by simp)
      have hbelow1 : ∀ e ∈ st.entries ++ [CacheState.mkEntry st.nextId p t],
          ∀ b ∈ rest, e.createdAt < b.2 := by
        intro e he b hb
        rcases List.mem_append.mp he with he' | he'
        · exact hbelow e he' b (hmemrest b hb)
        · rw [List.mem_singleton.mp he']
          exact (List.pairwise_cons.mp htimes).1 b hb
      have hfresh1 : ∀ e ∈ st.entries ++ [CacheState.mkEntry st.nextId p t],
          ∀ b ∈ rest, e.batchId ≠ b.1.batchId := by
        intro e he b hb
        rcases List.mem_append.mp he with he' | he'
        · exact hfresh e he' b (hmemrest b hb)
        · rw [List.mem_singleton.mp he']
          have hhead : p.batchId ∉ rest.map (fun x => x.1.batchId) :=
            (List.nodup_cons.mp hnodup).1
          show p.batchId ≠ b.1.batchId
          intro hcontra
          rw [hcontra] at hhead
          exact hhead (List.mem_map_of_mem (fun x => x.1.batchId) hb)
      obtain ⟨st', hrun, ho', hc', hmap, hsorted'⟩ :=
        ih ⟨st.isOpen, st.conn, st.nextId + 1,
            st.entries ++ [CacheState.mkEntry st.nextId p t]⟩
          ho hc hsorted1 hbelow1 hfresh1
          ((List.pairwise_cons.mp htimes).2) ((List.nodup_cons.mp hnodup).2)
      refine ⟨st', ?_, ho', hc', ?_, hsorted'⟩
      · rw [addSeq, hadd]
        exact hrun
      · rw [hmap]
        show (st.entries ++ [CacheState.mkEntry st.nextId p t]).map _ ++ _ = _
        rw [List.map_append, List.append_assoc]
        rfl

/-- C6: starting from a freshly opened (empty) cache, adding `N`
payloads with pairwise-fresh batch ids at strictly increasing creation
times `t1 < t2 < ... < tN` makes `get_pending(limit = N)` return the
corresponding rows in exactly that order (oldest creation time
first). -/
theorem get_pending_fifo (items : List (PayloadMeta × ℚ)) (st : CacheState)
    (hopen : st.isOpen = true) (hconn : st.conn = true)
    (hempty : st.entries = [])
    (htimes : items.Pairwise (fun a b => a.2 < b.2))
    (hbatch : (items.map (fun it => it.1.batchId)).Nodup) :
    ∃ st', addSeq st items = .ok st'
      ∧ (st'.getPending items.length).map (fun e => (e.batchId, e.createdAt)) =
          items.map (fun it => (it.1.batchId, it.2)) := by
  obtain ⟨st', hrun, ho, hc, hmap, hsorted⟩ :=
    addSeq_spec items st hopen hconn (by rw [hempty]; exact List.Pairwise.nil)
      (by rw [hempty]; intro e he; cases he) (by rw [hempty]; intro e he; cases he)
      htimes hbatch
  rw [hempty, List.map_nil, List.nil_append] at hmap
  refine ⟨st', hrun, ?_⟩
  rw [CacheState.getPending]
  simp only [ho, hc, Bool.not_true, Bool.or_self, Bool.false_eq_true, if_false]
  rw [sortByCreated_eq_self _ hsorted]
  have hlen : st'.entries.length = items.length := by
    have hl := congrArg List.length hmap
    simpa using hl
  rw [← hlen, List.take_length, hmap]

/-- Witness for C6: two payloads added at times 1 and 2 are replayed by
`get_pending` in that order. -/
theorem get_pending_fifo_witness :
    ∃ st', addSeq ⟨true, true, 1, []⟩
        [(⟨"b1", "d", 0⟩, 1), (⟨"b2", "d", 0⟩, 2)] = .ok st'
      ∧ (st'.getPending 2).map (fun e => (e.batchId, e.createdAt)) =
          [("b1", 1), ("b2", 2)] :=
  get_pending_fifo [(⟨"b1", "d", 0⟩, 1), (⟨"b2", "d", 0⟩, 2)]
    ⟨true, true, 1, []⟩ rfl rfl rfl (by norm_num) (by simp)

/-! ## Cache flush and the abandonment ceiling (C7) -/

/-- The body of the `for entry in entries` loop of
`HTTPReporter.flush_cache_sync` (http.py, lines 378-394).  `deliver`
abstracts `_send_with_retry_sync(entry.payload)` returning SUCCESS,
keyed by the entry id; `errMsg` is the formatted
`f-string` passed to `update_retry`.  On success the entry is removed
and the success count incremented; on failure `update_retry` increments
its stored retry count, and then, if the snapshot `entry.retry_count`
read before the increment is at least `retry_max * 3`, the entry is
removed (abandoned). -/
def flushStep (cfg : ReporterConfig) (deliver : Nat → Bool) (errMsg : String)
    (acc : Nat × CacheState) (e : CacheEntry) : Nat × CacheState :=
  if deliver e.id then
    (acc.1 + 1, (acc.2.remove e.id).2)
  else
    let st1 := acc.2.updateRetry e.id errMsg
    if cfg.retryMax * 3 ≤ e.retryCount then (acc.1, (st1.remove e.id).2)
    else (acc.1, st1)

/-- `HTTPReporter.flush_cache_sync` (http.py, lines 363-399): 0 when no
cache is configured or the cache is closed; otherwise re-deliver the up
to `batch_size` oldest pending entries, returning the success count and
the resulting cache state. -/
def flushCacheSync (cfg : ReporterConfig) (hasCache : Bool) (st : CacheState)
    (deliver : Nat → Bool) (errMsg : String) : Nat × CacheState :=
  if !hasCache || !st.isOpen then (0, st)
  else
    let entries := st.getPending cfg.batchSize
    if entries = [] then (0, st)
    else entries.foldl (flushStep cfg deliver errMsg) (0, st)

lemma map_update_id_of_not_mem (l : List CacheEntry) (i : Nat)
    (g : CacheEntry → CacheEntry) (h : ∀ x ∈ l, x.id ≠ i) :
    l.map (fun x => if x.id = i then g x else x) = l := by
  induction l with
  | nil => rfl
  | cons x xs ih =>
      rw [List.map_cons, if_neg (h x (by simp)), ih (fun y hy => h y (by simp [hy]))]

lemma filter_ne_id_of_not_mem (l : List CacheEntry) (i : Nat)
    (h : ∀ x ∈ l, x.id ≠ i) :
    l.filter (fun x => decide (x.id ≠ i)) = l := by
  rw [List.filter_eq_self]
  intro x hx
  simp only [decide_eq_true_eq]
  exact h x hx

/-- Effect of the flush loop when every re-delivery fails: with
pairwise-distinct row ids, each processed entry has its retry count
incremented, is abandoned when its pre-increment count is at least
`retry_max * 3`, and is kept otherwise.  `done` is the already-processed
prefix as it stands in the table. -/
lemma flush_fold_all_fail (cfg : ReporterConfig) (deliver : Nat → Bool)
    (errMsg : String) (hfail : ∀ i, deliver i = false) :
    ∀ (l2 : List CacheEntry) (st : CacheState) (done : List CacheEntry) (n : Nat),
      st.isOpen = true → st.conn = true →
      st.entries = done ++ l2 →
      ((done ++ l2).map CacheEntry.id).Nodup →
      l2.foldl (flushStep cfg deliver errMsg) (n, st) =
        (n, { st with entries := done ++ l2.filterMap (fun e =>
          if cfg.retryMax * 3 ≤ e.retryCount then none
          else some (CacheState.bumpRetry errMsg e)) }) := by
  intro l2
  induction l2 with
  | nil =>
      intro st done n _ _ hent _
      rw [List.append_nil] at hent
      simp [← hent]
  | cons e l2' ih =>
      intro st done n ho hc hent hids
      have hmap : (done.map CacheEntry.id).Nodup ∧
          ((e :: l2').map CacheEntry.id).Nodup ∧
          (done.map CacheEntry.id).Disjoint ((e :: l2').map CacheEntry.id) := by
        rw [← List.nodup_append, ← List.map_append]
        exact hids
      have hid_done : ∀ x ∈ done, x.id ≠ e.id := by
        intro x hx hxe
        exact hmap.2.2 (List.mem_map_of_mem _ hx) (by rw [hxe]; simp)
      have hid_l2' : ∀ x ∈ l2', x.id ≠ e.id := by
        intro x hx hxe
        have hhd : e.id ∉ l2'.map CacheEntry.id := by
          have hn := hmap.2.1
          rw [List.map_cons, List.nodup_cons] at hn
          exact hn.1
        exact hhd (hxe ▸ List.mem_map_of_mem _ hx)
      have hupd : st.updateRetry e.id errMsg =
          { st with entries := done ++ CacheState.bumpRetry errMsg e :: l2' } := by
        rw [CacheState.updateRetry]
        simp only [ho, hc, Bool.not_true, Bool.or_self, Bool.false_eq_true, if_false]
        rw [hent, List.map_append, List.map_cons, if_pos rfl,
          map_update_id_of_not_mem done e.id _ hid_done,
          map_update_id_of_not_mem l2' e.id _ hid_l2']
      have hbid : (CacheState.bumpRetry errMsg e).id = e.id := rfl
      have hremove : ((st.updateRetry e.id errMsg).remove e.id).2 =
          { st with entries := done ++ l2' } := by
        rw [hupd, CacheState.remove]
        simp only [ho, hc, Bool.not_true, Bool.or_self, Bool.false_eq_true, if_false]
        rw [List.filter_append, List.filter_cons]
        simp only [hbid, ne_eq, not_true_eq_false, decide_False, Bool.false_eq_true,
          if_false]
        rw [filter_ne_id_of_not_mem done e.id hid_done,
          filter_ne_id_of_not_mem l2' e.id hid_l2']
      have hsub : ((done ++ l2').map CacheEntry.id).Nodup := by
        refine List.Nodup.sublist ?_ hids
        exact List.Sublist.map _ (List.Sublist.append_left (List.sublist_cons_self _ _) done)
      rw [List.foldl_cons]
      have hstepval : flushStep cfg deliver errMsg (n, st) e =
          if cfg.retryMax * 3 ≤ e.retryCount then
            (n, ((st.updateRetry e.id errMsg).remove e.id).2)
          else (n, st.updateRetry e.id errMsg) := by
        rw [flushStep, hfail e.id]
        simp only [Bool.false_eq_true, if_false]
      by_cases hcase : cfg.retryMax * 3 ≤ e.retryCount
      · rw [hstepval, if_pos hcase, hremove]
        have hrec := ih { st with entries := done ++ l2' } done n ho hc rfl hsub
        rw [hrec]
        rw [List.filterMap_cons_none (by simp [hcase])]
      · rw [hstepval, if_neg hcase, hupd]
        have hent1 : ({ st with entries := done ++ CacheState.bumpRetry errMsg e :: l2' } :
            CacheState).entries = (done ++ [CacheState.bumpRetry errMsg e]) ++ l2' := by
          rw [List.append_assoc, List.singleton_append]
        have hsub1 : (((done ++ [CacheState.bumpRetry errMsg e]) ++ l2').map
            CacheEntry.id).Nodup := by
          have : ((done ++ [CacheState.bumpRetry errMsg e]) ++ l2').map CacheEntry.id =
              ((done ++ e :: l2').map CacheEntry.id) := by
            simp [List.map_append, List.append_assoc, hbid]
          rw [this]
          exact hids
        have hrec := ih { st with entries := done ++ CacheState.bumpRetry errMsg e :: l2' }
          (done ++ [CacheState.bumpRetry errMsg e]) n ho hc hent1 hsub1
        rw [hrec]
        have hfe : (fun x => if cfg.retryMax * 3 ≤ x.retryCount then none
            else some (CacheState.bumpRetry errMsg x)) e =
            some (CacheState.bumpRetry errMsg e) := by
          simp [hcase]
        rw [@List.filterMap_cons_some CacheEntry CacheEntry
          (fun x => if cfg.retryMax * 3 ≤ x.retryCount then none
            else some (CacheState.bumpRetry errMsg x)) e l2'
          (CacheState.bumpRetry errMsg e) hfe]
        rw [List.append_assoc, List.singleton_append]

/-- C7: during `flush_cache_sync` on an open cache (rows listed oldest
first with distinct ids, all of them fetched, i.e. `batch_size` at least
the row count), when every re-delivery fails, each pending entry's
stored retry count is incremented, and an entry is abandoned (removed)
exactly when its cumulative retry count after the increment exceeds
`3 * retry_max`; entries at or below that ceiling remain cached with the
incremented count.  The success count is 0. -/
theorem flush_cache_abandon_threshold (cfg : ReporterConfig) (st : CacheState)
    (deliver : Nat → Bool) (errMsg : String)
    (hopen : st.isOpen = true) (hconn : st.conn = true)
    (hsort : st.entries.Pairwise (fun a b => a.createdAt < b.createdAt))
    (hids : (st.entries.map CacheEntry.id).Nodup)
    (hlimit : st.entries.length ≤ cfg.batchSize)
    (hfail : ∀ i, deliver i = false) :
    (flushCacheSync cfg true st deliver errMsg).1 = 0
    ∧ (flushCacheSync cfg true st deliver errMsg).2.entries =
        st.entries.filterMap (fun e =>
          if cfg.retryMax * 3 < e.retryCount + 1 then none
          else some (CacheState.bumpRetry errMsg e)) := by
  have hpending : st.getPending cfg.batchSize = st.entries := by
    rw [CacheState.getPending]
    simp only [hopen, hconn, Bool.not_true, Bool.or_self, Bool.false_eq_true, if_false]
    rw [sortByCreated_eq_self _ hsort, List.take_of_length_le hlimit]
  have hfun : (fun e => if cfg.retryMax * 3 ≤ e.retryCount then none
        else some (CacheState.bumpRetry errMsg e)) =
      (fun e : CacheEntry => if cfg.retryMax * 3 < e.retryCount + 1 then none
        else some (CacheState.bumpRetry errMsg e)) := by
    funext e
    exact if_congr (by omega) rfl rfl
  rw [flushCacheSync]
  simp only [hopen, Bool.not_true, Bool.or_false, Bool.false_or, Bool.false_eq_true,
    if_false, hpending]
  by_cases hnil : st.entries = []
  · rw [if_pos hnil, hnil]
    exact ⟨rfl, by simp⟩
  · rw [if_neg hnil]
    have hfold := flush_fold_all_fail cfg deliver errMsg hfail st.entries st [] 0
      hopen hconn (by simp) (by simpa using hids)
    rw [hfold, ← hfun]
    exact ⟨rfl, by simp⟩

/-- Witness for C7: `retry_max = 2` (ceiling 6); an entry with stored
count 6 (cumulative 7 > 6) is abandoned while one with stored count 5
(cumulative 6) is kept, incremented. -/
theorem flush_cache_abandon_threshold_witness :
    (flushCacheSync ⟨2, 1, 2, 10⟩ true
        ⟨true, true, 5, [⟨1, "b1", "d", 1, 6, ""⟩, ⟨2, "b2", "d", 2, 5, ""⟩]⟩
        (fun _ => false) "err").2.entries =
      [⟨2, "b2", "d", 2, 6, "err"⟩] := by
  have h := flush_cache_abandon_threshold ⟨2, 1, 2, 10⟩
    ⟨true, true, 5, [⟨1, "b1", "d", 1, 6, ""⟩, ⟨2, "b2", "d", 2, 5, ""⟩]⟩
    (fun _ => false) "err" rfl rfl (by norm_num) (by simp) (by simp) (fun _ => rfl)
  rw [h.2]
  rfl

/-! ## Agent main loop batching (agent.py `EdgeAgent.run`, lines 322-362) -/

/-- The batching-relevant configuration of the agent. -/
structure AgentBatchConfig where
  batchSize : Nat
  batchInterval : ℚ

/-- The state of the accumulation loop in `EdgeAgent.run`:
`buffer` is `results_buffer`, `lastReportTime` is `last_report_time`,
and `queue` records, oldest first, the result lists of the
`ReportPayload`s put on `self._report_queue`. -/
structure AgentLoopState where
  buffer : List Nat
  lastReportTime : ℚ
  queue : List (List Nat)
  deriving DecidableEq

/-- One iteration of the `for frame in source` body (agent.py, lines
328-354) at wall-clock time `t`: the processed frame's result (`some r`
if kept, `none` if dropped by `report_only_detections`) is appended to
the buffer; then `should_report` is evaluated —
`len(results_buffer) >= batch_size` or the buffer is non-empty and at
least `batch_interval` elapsed since the last flush — and if it holds a
payload with the buffer's contents is enqueued, the buffer cleared and
the flush timer reset. -/
def processFrame (cfg : AgentBatchConfig) (st : AgentLoopState) (t : ℚ)
    (r : Option Nat) : AgentLoopState :=
  let buf := match r with
    | some x => st.buffer ++ [x]
    | none => st.buffer
  if cfg.batchSize ≤ buf.length ∨ (buf ≠ [] ∧ cfg.batchInterval ≤ t - st.lastReportTime) then
    ⟨[], t, st.queue ++ [buf]⟩
  else
    ⟨buf, st.lastReportTime, st.queue⟩

/-- The accumulation loop over the frames the source yields: each event
is (processing time, kept result or `none`).  Between events no code of
the loop runs, so the state is a function of the event list alone. -/
def runLoop (cfg : AgentBatchConfig) (st : AgentLoopState)
    (events : List (ℚ × Option Nat)) : AgentLoopState :=
  events.foldl (fun s ev => processFrame cfg s ev.1 ev.2) st

/-- After the `for` loop exits (source exhausted or stop requested), any
remaining buffered results are enqueued as a final payload (agent.py,
lines 356-362). -/
def finishRun (st : AgentLoopState) : AgentLoopState :=
  if st.buffer ≠ [] then { st with queue := st.queue ++ [st.buffer] } else st

/-- Counterexample to C4: `batch_interval = 5`, `batch_size = 1000000`,
one result entering the buffer at time 0 and no further frames
arriving.  The flush condition is evaluated only inside the per-frame
loop body, so after the single frame the loop state is final: no matter
how much wall-clock time elapses (5 seconds or any amount), no
`ReportPayload` is constructed or enqueued — the queue stays empty and
the result stays in the buffer, contradicting "is flushed once 5
seconds elapse since the last flush, even when no further frames
arrive". -/
theorem batch_time_flush_no_frame_counterexample :
    (runLoop ⟨1000000, 5⟩ ⟨[], 0, []⟩ [(0, some 7)]).queue = []
    ∧ (runLoop ⟨1000000, 5⟩ ⟨[], 0, []⟩ [(0, some 7)]).buffer = [7] := by
  constructor <;> norm_num [runLoop, processFrame]

/-- C4 (amended): the time-based flush trigger is only evaluated when a
frame is processed.  With the buffer non-empty after the current
frame's result is appended and at least `batch_interval` elapsed since
the last flush, processing a frame at time `t` enqueues the buffer as a
payload, clears it and resets the flush timer (this holds regardless of
`batch_size`, in particular for an arbitrarily large one); and when the
loop exits with a non-empty buffer, the remainder is enqueued as a
final payload.  With no further frames and the source not exhausted,
nothing is flushed. -/
theorem batch_time_flush_on_next_frame (cfg : AgentBatchConfig)
    (st : AgentLoopState) (t : ℚ) (r : Option Nat) :
    ((match r with
        | some x => st.buffer ++ [x]
        | none => st.buffer) ≠ [] →
      cfg.batchInterval ≤ t - st.lastReportTime →
      processFrame cfg st t r =
        ⟨[], t, st.queue ++ [match r with
          | some x => st.buffer ++ [x]
          | none => st.buffer]⟩)
    ∧ (st.buffer ≠ [] → finishRun st = { st with queue := st.queue ++ [st.buffer] }) := by
  constructor
  · intro hne htime
    rw [processFrame.eq_def]
    rw [if_pos (Or.inr ⟨hne, htime⟩)]
  · intro hne
    rw [finishRun, if_pos hne]

/-- Witness for C4 (amended): a buffered result from time 0 is flushed
by a frame processed at time 6 with `batch_interval = 5` and
`batch_size = 1000000`, and by loop exit. -/
theorem batch_time_flush_on_next_frame_witness :
    processFrame ⟨1000000, 5⟩ ⟨[7], 0, []⟩ 6 none = ⟨[], 6, [[7]]⟩
    ∧ finishRun ⟨[7], 0, []⟩ = ⟨[7], 0, [[7]]⟩ := by
  have h := batch_time_flush_on_next_frame ⟨1000000, 5⟩ ⟨[7], 0, []⟩ 6 none
  exact ⟨h.1 (by simp) (by norm_num), h.2 (by simp)⟩

end VisionAnalysis
